import Mathlib

/-!
Verification of the auto_responder reasoning-loop state machine and the
context-retrieval pipeline (app/agents/base_agent.py, context_retriever.py,
intent_classifier.py, response_generator.py).

Texts are modelled as `String` at the interfaces and `List Char` internally
(in Lean 4.14 a `String` is a structure around `List Char`, so the
conversion is exact).  Python string operations used by the code
(`in`, `strip`, `lower`, `split`, `replace`, slicing) are rendered as
executable functions over `List Char` below.  Relevance scores (Python
floats holding small decimal values that are only compared, added and
divided) are rendered as `ℚ`.
-/

namespace AutoResponder

/-! ## Python string primitives -/

/-- Python `needle in hay` (contiguous substring test). -/
def strIn (needle : List Char) : List Char → Bool
  | [] => needle.isEmpty
  | c :: rest => needle.isPrefixOf (c :: rest) || strIn needle rest

/-- Python `s.strip()` on the left: drop leading whitespace. -/
def dropLeadWs (l : List Char) : List Char := l.dropWhile Char.isWhitespace

/-- Python `s.strip()`: drop leading and trailing whitespace. -/
def stripChars (l : List Char) : List Char :=
  ((l.dropWhile Char.isWhitespace).reverse.dropWhile Char.isWhitespace).reverse

/-- Python `s.lower()` (the texts involved are ASCII). -/
def lowerChars (l : List Char) : List Char := l.map Char.toLower

/-- Accumulator for `pySplitWs` (current word is reversed). -/
def wordsGo : List Char → List Char → List (List Char)
  | cur, [] => if cur.isEmpty then [] else [cur.reverse]
  | cur, c :: rest =>
    if c.isWhitespace then
      if cur.isEmpty then wordsGo [] rest else cur.reverse :: wordsGo [] rest
    else wordsGo (c :: cur) rest

/-- Python `s.split()` with no argument: split on whitespace runs, no empties. -/
def pySplitWs (l : List Char) : List (List Char) := wordsGo [] l

/-- Accumulator for `splitOnChar` (current chunk is reversed). -/
def splitOnCharGo (sep : Char) : List Char → List Char → List (List Char)
  | cur, [] => [cur.reverse]
  | cur, c :: rest =>
    if c == sep then cur.reverse :: splitOnCharGo sep [] rest
    else splitOnCharGo sep (c :: cur) rest

/-- Python `s.split(sep)` for a one-character separator (keeps empty chunks). -/
def splitOnChar (sep : Char) (l : List Char) : List (List Char) := splitOnCharGo sep [] l

/-- Python `s.replace(pat, rep)` for a non-empty pattern `p0 :: pt`:
left-to-right, non-overlapping.  The extra `fuel` argument (instantiated
with the input length, an upper bound on the number of steps) only makes
the recursion structural; it never runs out. -/
def replGo (p0 : Char) (pt rep : List Char) : ℕ → List Char → List Char
  | _, [] => []
  | 0, l => l
  | fuel + 1, c :: rest =>
    if c == p0 && pt.isPrefixOf rest then
      rep ++ replGo p0 pt rep fuel (rest.drop pt.length)
    else c :: replGo p0 pt rep fuel rest

/-- Python `s.replace(pat, rep)` (the empty pattern does not occur in the code). -/
def pyReplace (l pat rep : List Char) : List Char :=
  match pat with
  | [] => l
  | p0 :: pt => replGo p0 pt rep l.length l

/-- Python `' '.join(ws)`. -/
def joinSpace : List (List Char) → List Char
  | [] => []
  | [w] => w
  | w :: ws => w ++ ' ' :: joinSpace ws

/-! ## Reasoning-loop state machine (base_agent.py)

`AgentState` keeps the fields of `app.agents.base_agent.AgentState` that the
loop's routing and acting phases read or write; `AgentAction` is langchain's
`AgentAction` record `{tool, tool_input}`.  Optional Python strings are
`Option String`; Python truthiness of an optional string (`None` and `""`
are falsy) is `pyTruthy`. -/

structure AgentAction where
  tool : String
  tool_input : String
deriving DecidableEq, Repr

structure AgentState where
  email_content : Option String := none
  subject : Option String := none
  intent : Option String := none
  messages : List String := []
  action_results : List String := []
  current_action : Option AgentAction := none
  final_answer : Option String := none
  error : Option String := none
deriving DecidableEq, Repr

/-- Python truthiness of an `Optional[str]` field. -/
def pyTruthy : Option String → Bool
  | none => false
  | some s => !s.isEmpty

/-- `BaseAgent._route_agent_step` (base_agent.py lines 187-195): routes on
`error`, then `final_answer`, then `current_action`, else `"error"`.
The Python function returns one of the strings `"error"`, `"final"`,
`"action"`; an `AgentAction` object is always truthy, so the third test is
`isSome`. -/
def routeAgentStep (s : AgentState) : String :=
  if pyTruthy s.error then "error"
  else if pyTruthy s.final_answer then "final"
  else if s.current_action.isSome then "action"
  else "error"

/-- `BaseAgent._execute_action` (base_agent.py lines 197-220).
`hasExecutor` is `self.tool_executor is not None` (tools were given);
`toolOutcome` is the outcome of `await self.tool_executor.ainvoke(...)`:
`Except.ok r` for a normal return whose `str()` is `r`, `Except.error e`
when the call raised an exception with message `e` (the `except` clause
formats it as `"Action execution failed: " + e` and sets `state.error`;
note that it does NOT clear `state.current_action`). -/
def executeAction (s : AgentState) (hasExecutor : Bool) (toolOutcome : Except String String) :
    AgentState :=
  if s.current_action.isNone || !hasExecutor then
    { s with error := some "No action to execute or no tool executor" }
  else
    match toolOutcome with
    | Except.ok result =>
      { s with
        action_results := s.action_results ++ [result]
        messages := s.messages ++ ["Observation: " ++ result]
        current_action := none }
    | Except.error e =>
      { s with error := some ("Action execution failed: " ++ e) }

/-! ## Decision-output parsing (`BaseAgent._parse_llm_response`, lines 269-283)

The Python code strips the response; if the literal `"Action:"` occurs it
runs `re.search(r"Action: (\w+)\nAction Input: (.*?)(?:\n|$)", response,
re.DOTALL)`; on a match it returns `AgentAction(tool, tool_input)` (both
groups stripped), otherwise it falls through and returns
`AgentFinish` whose output is the response with every literal
`"Final Answer:"` removed, stripped.

The regex is rendered exactly: `re.search` tries each start position left to
right; at a start position the literal `"Action: "` must match, then `(\w+)`
greedily takes a maximal non-empty run of word characters (ASCII
`[A-Za-z0-9_]` for these inputs); since a backtracked run would have to be
followed by `'\n'` — a non-word character — only the maximal run can be
followed by the literal `"\nAction Input: "`; finally the lazy
`(.*?)(?:\n|$)` (with DOTALL) captures up to the first `'\n'` after that
literal, or to the end of the string. -/

/-- Python regex `\w` on ASCII input. -/
def isWordChar (c : Char) : Bool := c.isAlphanum || c == '_'

/-- Match the part of the action regex that follows the literal
`"Action: "`; returns `(group 1, group 2)` on success. -/
def matchActionTail (rest : List Char) : Option (List Char × List Char) :=
  let w := rest.takeWhile isWordChar
  let r2 := rest.dropWhile isWordChar
  if w.isEmpty then none
  else if ("\nAction Input: ").data.isPrefixOf r2 then
    some (w, (r2.drop ("\nAction Input: ").data.length).takeWhile (fun c => c != '\n'))
  else none

/-- `re.search` for the action regex: leftmost start position that matches. -/
def searchActionGo : List Char → Option (List Char × List Char)
  | [] => none
  | c :: rest =>
    if ("Action: ").data.isPrefixOf (c :: rest) then
      match matchActionTail ((c :: rest).drop ("Action: ").data.length) with
      | some r => some r
      | none => searchActionGo rest
    else searchActionGo rest

/-- The combined test the parser applies to the stripped response: the
substring check `"Action:" in response` followed by the regex search.
`none` means the text does not have the full `Action:` / `Action Input:`
shape. -/
def actionMatch (stripped : List Char) : Option (List Char × List Char) :=
  if strIn ("Action:").data stripped then searchActionGo stripped else none

/-- `BaseAgent._parse_llm_response`: an `AgentAction` on a regex match,
otherwise an `AgentFinish` (rendered as its output string). -/
def parseLLMResponse (response : String) : Sum AgentAction String :=
  let r := stripChars response.data
  match actionMatch r with
  | some (tool, input) =>
    Sum.inl ⟨String.mk (stripChars tool), String.mk (stripChars input)⟩
  | none =>
    Sum.inr (String.mk (stripChars (pyReplace r ("Final Answer:").data [])))

/-! ## Deduplication (`ContextRetrieverAgent._deduplicate_contexts`,
context_retriever.py lines 470-509)

The Python function walks three parallel lists `contexts`, `sources`,
`scores` (always of equal length at the call site: step 3 of `process`
extends all three together), so it is rendered over one list of
text/source/score triples.  `seen_contexts` maps each dedup key to the index
of its first occurrence in `unique_contexts`; a replacement stores a context
with the same key, and distinct entries always have distinct keys, so the
dict lookup equals "first index in the accumulator whose key matches",
which is how it is rendered (`dedupInsert` scans the accumulator). -/

structure Passage where
  text : String
  source : String
  score : ℚ
deriving DecidableEq, Repr, Inhabited

/-- Dedup key: `context[:100].strip()`. -/
def dedupKey (t : String) : List Char := stripChars (t.data.take 100)

/-- Key of a passage. -/
def keyOf (p : Passage) : List Char := dedupKey p.text

/-- Process one incoming passage against the accumulated unique list:
first key match is replaced when the newcomer's score is strictly higher
(`scores[i] > unique_scores[existing_idx]`), an unseen key is appended. -/
def dedupInsert (p : Passage) : List Passage → List Passage
  | [] => [p]
  | q :: qs =>
    if keyOf q = keyOf p then
      (if p.score > q.score then p else q) :: qs
    else
      q :: dedupInsert p qs

/-- `_deduplicate_contexts`: streaming reduce over the concatenated list. -/
def deduplicateContexts (ps : List Passage) : List Passage :=
  ps.foldl (fun acc p => dedupInsert p acc) []

/-! Reference rendering of the dedup step following the specification's own
words (spec §4.3 "Deduplication algorithm"), to be compared with
`deduplicateContexts`: output order is insertion order of first occurrence
of each key, and the kept entry for a key is the left fold of that key's
occurrence group under "a strictly higher score replaces". -/

/-- Spec words: the kept entry for one duplicate group — first occurrence
initializes, each later strictly higher-scored occurrence replaces. -/
def groupKeep (first : Passage) (laters : List Passage) : Passage :=
  laters.foldl (fun kept p => if p.score > kept.score then p else kept) first

/-- Spec words: one output entry per first key occurrence, in input order. -/
def dedupSpec : List Passage → List Passage
  | [] => []
  | p :: ps =>
    groupKeep p (ps.filter (fun q => keyOf q = keyOf p))
      :: dedupSpec (ps.filter (fun q => ¬(keyOf q = keyOf p)))
termination_by l => l.length
decreasing_by
  simp only [List.length_cons]
  exact Nat.lt_succ_of_le (List.length_filter_le _ _)

/-! ## Relevance filtering (`ContextFilterTool._run`,
context_retriever.py lines 186-249)

Per context `i` the code formats a prompt, invokes the completion
capability and parses its reply with `float(...)`; a successfully parsed
value is clamped with `max(1, min(10, score))`, while a parse `ValueError`
or any exception in the attempt yields the default `5.0`.  The capability
plus parse is the external black box (spec §6), rendered as an oracle
`ℕ → Option ℚ` giving, per context index, the parsed numeric value if the
completion succeeded and parsed.  `sort(key=score, reverse=True)` is
Python's stable descending sort, rendered as a stable insertion sort
(`x` placed before `y` exactly when `x.score ≥ y.score`, so earlier
elements stay in front of equal-scored later ones). -/

structure ScoredCtx where
  context : String
  score : ℚ
  index : ℕ
deriving DecidableEq, Repr

structure FilterResult where
  filtered_contexts : List String
  scores : List ℚ
  original_indices : List ℕ
  total_filtered : ℕ
  avg_score : ℚ
deriving DecidableEq, Repr

/-- The clamped-or-defaulted score of one context (`score = max(1, min(10,
score))` on a parse, `5.0` otherwise). -/
def clampScore : Option ℚ → ℚ
  | some v => max 1 (min 10 v)
  | none => 5

/-- The scoring loop: one `{context, score, index}` record per context. -/
def scoreContexts (oracle : ℕ → Option ℚ) (contexts : List String) : List ScoredCtx :=
  contexts.enum.map (fun ic => ⟨ic.2, clampScore (oracle ic.1), ic.1⟩)

/-- Stable descending insertion: `x` goes in front of the first element it
is not outscored by. -/
def insertDesc (x : ScoredCtx) : List ScoredCtx → List ScoredCtx
  | [] => [x]
  | y :: ys => if x.score ≥ y.score then x :: y :: ys else y :: insertDesc x ys

/-- Stable descending sort (Python `list.sort(key=score, reverse=True)`). -/
def sortDesc : List ScoredCtx → List ScoredCtx
  | [] => []
  | x :: xs => insertDesc x (sortDesc xs)

/-- The sorted-then-filtered records of `ContextFilterTool._run`
(`score >= 6.0` retained). -/
def filterPipeline (oracle : ℕ → Option ℚ) (contexts : List String) : List ScoredCtx :=
  (sortDesc (scoreContexts oracle contexts)).filter (fun c => c.score ≥ 6)

/-- `ContextFilterTool._run`'s returned record (`avg_score` is
`sum/len` when the filtered list is non-empty, else `0`). -/
def contextFilterRun (oracle : ℕ → Option ℚ) (contexts : List String) : FilterResult :=
  let filtered := filterPipeline oracle contexts
  { filtered_contexts := filtered.map (fun c => c.context)
    scores := filtered.map (fun c => c.score)
    original_indices := filtered.map (fun c => c.index)
    total_filtered := filtered.length
    avg_score :=
      if filtered.isEmpty then 0
      else (filtered.map (fun c => c.score)).sum / filtered.length }

/-! ## Query expansion (`QueryExpansionTool._run`, lines 114-150, and
`ContextRetrieverAgent._expand_query`, lines 431-446)

The completion capability is rendered as `Option String` (`none` = the
call raised).  The tool strips the completion, splits it on newlines, and
keeps each stripped non-empty line that does not start with `"1."`..`"5."`,
dropping everything up to the first `". "` when one occurs; at most 5 are
returned.  On failure the tool returns `[query]`.  `_expand_query` prepends
the original query and removes duplicates with `dict.fromkeys`
(first-occurrence order); its own `except` arm (`outerOk = false`) returns
`[original_query]`. -/

/-- Suffix after the first occurrence of `sep` (used only when `sep` occurs:
Python `line.split(sep, 1)[1]`). -/
def afterFirstSub (sep : List Char) : List Char → List Char
  | [] => []
  | c :: rest =>
    if sep.isPrefixOf (c :: rest) then (c :: rest).drop sep.length
    else afterFirstSub sep rest

/-- One line of the tool's parse loop: `none` when the line is dropped. -/
def expansionLine (l : List Char) : Option (List Char) :=
  let line := stripChars l
  if !line.isEmpty
      && !(("1.").data.isPrefixOf line || ("2.").data.isPrefixOf line
        || ("3.").data.isPrefixOf line || ("4.").data.isPrefixOf line
        || ("5.").data.isPrefixOf line) then
    some (if strIn (". ").data line then afterFirstSub (". ").data line else line)
  else none

/-- `QueryExpansionTool._run`'s `expanded_queries` value. -/
def queryExpansionRun (query : String) (completion : Option String) : List String :=
  match completion with
  | none => [query]
  | some content =>
    (((splitOnChar '\n' (stripChars content.data)).filterMap expansionLine).map
      String.mk).take 5

/-- `list(dict.fromkeys(l))`: first occurrences, in order. -/
def dedupFirstOcc : List String → List String
  | [] => []
  | x :: xs => x :: dedupFirstOcc (xs.filter (fun y => ¬(y = x)))
termination_by l => l.length
decreasing_by
  simp only [List.length_cons]
  exact Nat.lt_succ_of_le (List.length_filter_le _ _)

/-- `ContextRetrieverAgent._expand_query`. -/
def expandQuery (originalQuery : String) (completion : Option String) (outerOk : Bool) :
    List String :=
  if outerOk then dedupFirstOcc (originalQuery :: queryExpansionRun originalQuery completion)
  else [originalQuery]

/-! ## Primary-query generation (`ContextRetrieverAgent._generate_search_query`,
context_retriever.py lines 386-429)

The completion capability is `Option String` (`none` = the `await
self.llm.ainvoke(prompt)` raised, which lands in the `except` arm: return
the subject if truthy, else the first 50 characters of the body).  With a
completion in hand, the code strips it and, when the result is falsy or
shorter than 3 characters, substitutes the keyword extraction over the
body; the keyword-extraction result is returned as is — the subject /
body-prefix fallback lives only in the `except` arm. -/

/-- The fixed stop-word set of `_generate_search_query`. -/
def stopWords : List (List Char) :=
  [("the").data, ("a").data, ("an").data, ("and").data, ("or").data, ("but").data,
   ("in").data, ("on").data, ("at").data, ("to").data, ("for").data, ("of").data,
   ("with").data, ("by").data, ("is").data, ("are").data, ("was").data, ("were").data,
   ("be").data, ("been").data, ("have").data, ("has").data, ("had").data, ("do").data,
   ("does").data, ("did").data, ("will").data, ("would").data, ("could").data,
   ("should").data, ("may").data, ("might").data, ("can").data, ("i").data,
   ("you").data, ("he").data, ("she").data, ("it").data, ("we").data, ("they").data,
   ("my").data, ("your").data, ("his").data, ("her").data, ("its").data,
   ("our").data, ("their").data]

/-- The fallback keyword extraction: lower-case the body, split on
whitespace, drop stop words and tokens of length ≤ 3, keep the first 5,
join with spaces. -/
def keywordExtract (body : String) : String :=
  let ws := pySplitWs (lowerChars body.data)
  let keywords := ws.filter (fun w => ¬(w ∈ stopWords) ∧ w.length > 3)
  String.mk (joinSpace (keywords.take 5))

/-- `_generate_search_query` as a function of the body, the subject, and the
completion outcome. -/
def generateSearchQuery (emailContent : String) (subject : Option String)
    (completion : Option String) : String :=
  match completion with
  | none =>
    if pyTruthy subject then subject.getD "" else String.mk (emailContent.data.take 50)
  | some resp =>
    let q := stripChars resp.data
    if q.isEmpty || q.length < 3 then keywordExtract emailContent else String.mk q

/-! ## Urgency classification (`KeywordAnalysisTool._run`,
intent_classifier.py lines 80-125)

`URGENCY_KEYWORDS` iterates in dict insertion order high, medium, low;
`urgency` starts at `"low"`, a matching tier overwrites it, and only the
high tier `break`s (so without a high match, the LAST matching tier of
medium, low wins). -/

def highUrgencyKeywords : List String :=
  ["urgent", "emergency", "asap", "immediately", "critical",
   "deadline", "time-sensitive", "rush", "priority"]

def mediumUrgencyKeywords : List String :=
  ["soon", "quickly", "prompt", "timely", "important",
   "needs attention", "follow up"]

def lowUrgencyKeywords : List String :=
  ["when convenient", "no rush", "whenever", "at your convenience",
   "low priority", "informational"]

/-- `any(keyword in content_lower for keyword in keywords)`. -/
def kwAny (contentLower : List Char) (kws : List String) : Bool :=
  kws.any (fun k => strIn k.data contentLower)

/-- The tiers in dict insertion order. -/
def urgencyTiers : List (String × List String) :=
  [("high", highUrgencyKeywords), ("medium", mediumUrgencyKeywords),
   ("low", lowUrgencyKeywords)]

/-- One iteration of the urgency loop; the flag records the `break`. -/
def urgencyStep (contentLower : List Char) (st : String × Bool)
    (tier : String × List String) : String × Bool :=
  if st.2 then st
  else if kwAny contentLower tier.2 then (tier.1, tier.1 == "high")
  else st

/-- The urgency part of `KeywordAnalysisTool._run` on the lower-cased
content. -/
def determineUrgency (contentLower : List Char) : String :=
  (urgencyTiers.foldl (urgencyStep contentLower) ("low", false)).1

/-- Urgency of an email (`content_lower = email_content.lower()`). -/
def keywordUrgency (emailContent : String) : String :=
  determineUrgency (lowerChars emailContent.data)

/-! ## Tone analysis (`ToneAnalysisTool._run`, response_generator.py lines
32-95)

`TONE_MAPPING` is a class-level dict of lists.  `base_tones =
self.TONE_MAPPING.get(intent, ["professional"])` ALIASES the stored list
when the intent is a key, and the subsequent `insert(0, "apologetic")` /
`append("understanding")` / `append("friendly")` mutate that stored list in
place, so the mapping is threaded through the rendering as explicit state:
`toneRun` returns the result together with the mapping after the call.
`sender_history` is only read through `.get("vip_status", False)` after a
truthiness test, so it is rendered as `Option Bool`. -/

def initialToneMapping : List (String × List String) :=
  [("question", ["helpful", "informative", "professional"]),
   ("complaint", ["apologetic", "understanding", "solution-focused"]),
   ("escalation", ["urgent", "professional", "reassuring"]),
   ("request", ["accommodating", "professional", "helpful"])]

def negativeIndicators : List String :=
  ["frustrated", "disappointed", "angry", "upset", "terrible",
   "awful", "horrible", "unacceptable", "disgusted", "furious"]

def positiveIndicators : List String :=
  ["thank", "appreciate", "great", "excellent", "wonderful",
   "pleased", "satisfied", "happy", "love", "impressed"]

structure ToneResult where
  primary_tone : String
  secondary_tones : List String
  emotional_sentiment : String
  urgency_detected : Bool
  vip_customer : Bool
  tone_confidence : ℚ
deriving DecidableEq, Repr

/-- `sum(1 for word in indicators if word in content_lower)`. -/
def countIndicators (indicators : List String) (contentLower : List Char) : ℕ :=
  (indicators.filter (fun w => strIn w.data contentLower)).length

/-- Dict lookup `mapping[intent]` (insertion-ordered, keys unique). -/
def assocGet (m : List (String × List String)) (k : String) : Option (List String) :=
  (m.find? (fun e => e.1 == k)).map (fun e => e.2)

/-- Overwrite the list stored under key `k`. -/
def assocSet (m : List (String × List String)) (k : String) (v : List String) :
    List (String × List String) :=
  m.map (fun e => if e.1 == k then (k, v) else e)

/-- The adjusted `base_tones` list after the sentiment branches. -/
def adjustTones (base0 : List String) (neg pos : ℕ) : List String :=
  if neg > pos ∧ neg > 0 then
    let b1 := if ("apologetic") ∈ base0 then base0 else ("apologetic") :: base0
    if ("understanding") ∈ b1 then b1 else b1 ++ [("understanding")]
  else if pos > neg ∧ pos > 0 then
    if ("friendly") ∈ base0 then base0 else base0 ++ [("friendly")]
  else base0

/-- `ToneAnalysisTool._run`, with the mutable class-level `TONE_MAPPING`
threaded explicitly: returns the call's result and the mapping state after
the call (unchanged only when the intent is not a mapping key, because then
`dict.get` supplied a fresh `["professional"]` list). -/
def toneRun (mapping : List (String × List String)) (emailContent intent : String)
    (senderVip : Option Bool) : ToneResult × List (String × List String) :=
  let cl := lowerChars emailContent.data
  let neg := countIndicators negativeIndicators cl
  let pos := countIndicators positiveIndicators cl
  match assocGet mapping intent with
  | some stored =>
    let base := adjustTones stored neg pos
    (⟨base.headD "professional", base.drop 1,
      if neg > pos then "negative" else if pos > 0 then "positive" else "neutral",
      kwAny cl ["urgent", "asap", "immediately", "emergency", "critical"],
      senderVip.getD false,
      min 1 (((base.length : ℚ) + neg + pos) / 5)⟩,
     assocSet mapping intent base)
  | none =>
    let base := adjustTones ["professional"] neg pos
    (⟨base.headD "professional", base.drop 1,
      if neg > pos then "negative" else if pos > 0 then "positive" else "neutral",
      kwAny cl ["urgent", "asap", "immediately", "emergency", "critical"],
      senderVip.getD false,
      min 1 (((base.length : ℚ) + neg + pos) / 5)⟩,
     mapping)

/-! ## Theorems: reasoning-loop state machine -/

/-- C2: `route` is a total pure function on the state returning exactly one
of `"action"`, `"final"`, `"error"`, decided in priority order: `error` set
(truthy) → `"error"`; else `finalAnswer` set → `"final"`; else
`pendingAction` set → `"action"`; else `"error"`. -/
theorem route_total_priority (s : AgentState) :
    (routeAgentStep s = "error" ∨ routeAgentStep s = "final"
      ∨ routeAgentStep s = "action")
    ∧ (pyTruthy s.error = true → routeAgentStep s = "error")
    ∧ (pyTruthy s.error = false → pyTruthy s.final_answer = true →
        routeAgentStep s = "final")
    ∧ (pyTruthy s.error = false → pyTruthy s.final_answer = false →
        s.current_action.isSome = true → routeAgentStep s = "action")
    ∧ (pyTruthy s.error = false → pyTruthy s.final_answer = false →
        s.current_action.isSome = false → routeAgentStep s = "error") := by
  unfold routeAgentStep
  refine ⟨?_, ?_, ?_, ?_, ?_⟩
  · split_ifs <;> simp
  all_goals intros
  all_goals simp_all

/-- Witness for C2 at concrete states: each routing branch realized. -/
theorem route_total_priority_witness :
    routeAgentStep { error := some "agent step failed" } = "error"
    ∧ routeAgentStep { final_answer := some "done" } = "final"
    ∧ routeAgentStep { current_action := some ⟨"vector_search", "q"⟩ } = "action"
    ∧ routeAgentStep {} = "error" :=
  ⟨(route_total_priority _).2.1 (by decide),
   (route_total_priority _).2.2.1 (by decide) (by decide),
   (route_total_priority _).2.2.2.1 (by decide) (by decide) (by decide),
   (route_total_priority _).2.2.2.2 (by decide) (by decide) (by decide)⟩

/-- C1 counterexample: when the tool call raises, `_execute_action` sets
`error` but does NOT clear `current_action` — the post-state's pending
action is still present, against the claim that it is null. -/
theorem act_failure_counterexample :
    (executeAction { current_action := some ⟨"vector_search", "return policy"⟩ } true
        (Except.error "boom")).error = some "Action execution failed: boom"
    ∧ ¬((executeAction { current_action := some ⟨"vector_search", "return policy"⟩ } true
        (Except.error "boom")).current_action = none) := by
  decide

/-- C1 amended: when acting on a state with a pending action fails (the
capability raised), the post-state has `error` set to the formatted failure
message and `pendingAction` UNCHANGED — it is still pending, cleared only by
a successful execution. -/
theorem act_failure_sets_error_keeps_pending (s : AgentState) (e : String)
    (h : s.current_action.isSome = true) :
    (executeAction s true (Except.error e)).error
        = some ("Action execution failed: " ++ e)
    ∧ (executeAction s true (Except.error e)).current_action = s.current_action := by
  unfold executeAction
  have hn : s.current_action.isNone = false := by
    cases hc : s.current_action <;> simp_all
  simp [hn]

/-- Witness for C1's amended theorem at a concrete failing call. -/
theorem act_failure_sets_error_keeps_pending_witness :
    (Option.isSome (some (AgentAction.mk "kb_search" "refund")) = true)
    ∧ (executeAction { current_action := some ⟨"kb_search", "refund"⟩ } true
        (Except.error "timeout")).error = some "Action execution failed: timeout" := by
  refine ⟨by decide, ?_⟩
  have h := (act_failure_sets_error_keeps_pending
    { current_action := some ⟨"kb_search", "refund"⟩ } "timeout" (by decide)).1
  rw [h]
  decide

/-- C10: decision-output parsing is total (always an action or a final
answer, never an exception), and whenever the text does not have the full
`Action:` name / `Action Input:` value shape — even if an `"Action:"`
marker is present — the result is a final answer whose content is the
stripped text with every literal `"Final Answer:"` removed. -/
theorem parse_fallback_to_final (r : String) :
    ((∃ a, parseLLMResponse r = Sum.inl a) ∨ (∃ f, parseLLMResponse r = Sum.inr f))
    ∧ (actionMatch (stripChars r.data) = none →
        parseLLMResponse r = Sum.inr (String.mk (stripChars
          (pyReplace (stripChars r.data) ("Final Answer:").data [])))) := by
  constructor
  · cases hp : parseLLMResponse r with
    | inl a => exact Or.inl ⟨a, rfl⟩
    | inr f => exact Or.inr ⟨f, rfl⟩
  · intro h
    unfold parseLLMResponse
    simp [h]

/-- Witness for C10: a reply that mentions `"Action:"` but lacks the
`Action Input:` line is parsed as a final answer with the
`"Final Answer:"` marker removed. -/
theorem parse_fallback_to_final_witness :
    actionMatch (stripChars ("Final Answer: Use the portal.\nAction: retry later").data)
        = none
    ∧ parseLLMResponse "Final Answer: Use the portal.\nAction: retry later"
        = Sum.inr "Use the portal.\nAction: retry later" := by
  refine ⟨by decide, ?_⟩
  have h := (parse_fallback_to_final "Final Answer: Use the portal.\nAction: retry later").2
    (by decide)
  rw [h]
  decide

/-! ## Theorems: query expansion (C5) -/

/-- Every element kept by `dict.fromkeys` comes from the input. -/
theorem dedupFirstOcc_subset : ∀ l : List String, ∀ a ∈ dedupFirstOcc l, a ∈ l := by
  intro l
  induction l using dedupFirstOcc.induct with
  | case1 => intro a ha; simp [dedupFirstOcc] at ha
  | case2 x xs ih =>
    intro a ha
    rw [dedupFirstOcc, List.mem_cons] at ha
    rcases ha with ha | ha
    · simp [ha]
    · have := ih a ha
      simp only [List.mem_filter, List.mem_cons] at this ⊢
      exact Or.inr this.1

/-- `dict.fromkeys` output has no duplicates. -/
theorem dedupFirstOcc_nodup : ∀ l : List String, (dedupFirstOcc l).Nodup := by
  intro l
  induction l using dedupFirstOcc.induct with
  | case1 => simp [dedupFirstOcc]
  | case2 x xs ih =>
    rw [dedupFirstOcc]
    refine List.nodup_cons.mpr ⟨?_, ih⟩
    intro hx
    have := dedupFirstOcc_subset _ _ hx
    simp at this

/-- C5: for every primary query and every completion outcome (including
failure of the expansion capability and of the surrounding call,
`outerOk = false`), the expanded-query list starts with the primary query,
contains no duplicate strings (case-sensitive exact equality), and on
either failure path is exactly `[primaryQuery]`. -/
theorem expand_query_shape (q : String) (completion : Option String) (ok : Bool) :
    (expandQuery q completion ok).head? = some q
    ∧ (expandQuery q completion ok).Nodup
    ∧ expandQuery q none ok = [q]
    ∧ expandQuery q completion false = [q] := by
  have hfail : expandQuery q none ok = [q] := by
    cases ok with
    | false => rfl
    | true =>
      show dedupFirstOcc (q :: [q]) = [q]
      rw [dedupFirstOcc]
      norm_num
      rw [dedupFirstOcc]
  refine ⟨?_, ?_, hfail, rfl⟩
  · cases ok with
    | false => rfl
    | true =>
      show (dedupFirstOcc (q :: _)).head? = some q
      rw [dedupFirstOcc]
      rfl
  · cases ok with
    | false => simp [expandQuery]
    | true => exact dedupFirstOcc_nodup _

/-! ## Theorems: primary-query generation (C6) -/

/-- C6 counterexample: with a non-empty body and a non-empty subject, an
empty completion puts the code on the keyword-extraction path, and when
every token of the body is a stop word or has length ≤ 3 the extraction is
empty — the function returns the empty string without ever consulting the
subject (the subject / body-prefix fallback lives only in the `except`
arm for a raised completion call). -/
theorem generate_query_empty_counterexample :
    ¬(("to be or not" : String) = "")
    ∧ ¬(("Any subject" : String) = "")
    ∧ generateSearchQuery "to be or not" (some "Any subject") (some "") = "" := by
  decide

/-- C6 amended: when the completion call raises, the query falls back to
the subject if it is truthy and otherwise to the first 50 characters of
the body; when the completion returns but its stripped text is empty or
shorter than 3 characters, the result is exactly the deterministic keyword
extraction of the body (which may itself be the empty string — there is no
further fallback to the subject on that path). -/
theorem generate_query_fallbacks (body : String) (subject : Option String) (resp : String) :
    (generateSearchQuery body subject none
        = if pyTruthy subject then subject.getD "" else String.mk (body.data.take 50))
    ∧ ((stripChars resp.data).isEmpty = true ∨ (stripChars resp.data).length < 3 →
        generateSearchQuery body subject (some resp) = keywordExtract body) := by
  constructor
  · rfl
  · intro h
    unfold generateSearchQuery
    rcases h with h | h <;> simp [h]

/-- Witness for C6's amended theorem: a too-short completion triggers the
keyword extraction. -/
theorem generate_query_fallbacks_witness :
    ((stripChars (" x ").data).isEmpty = true ∨ (stripChars (" x ").data).length < 3)
    ∧ generateSearchQuery "refund status please check" none (some " x ")
        = keywordExtract "refund status please check"
    ∧ keywordExtract "refund status please check" = "refund status please check" :=
  ⟨Or.inr (by decide),
   (generate_query_fallbacks "refund status please check" none " x ").2 (Or.inr (by decide)),
   by decide⟩

/-! ## Theorems: urgency classification (C7) -/

/-- C7 counterexample: a text matching a medium-tier keyword (`"soon"`) and
a low-tier keyword (`"whenever"`) but no high-tier keyword is classified
`"low"`, not `"medium"`: the loop only `break`s on the high tier, so the
low tier's later assignment overwrites the medium tier's. -/
theorem urgency_medium_low_counterexample :
    kwAny (lowerChars ("Please reply soon, whenever works").data) mediumUrgencyKeywords = true
    ∧ kwAny (lowerChars ("Please reply soon, whenever works").data) lowUrgencyKeywords = true
    ∧ kwAny (lowerChars ("Please reply soon, whenever works").data) highUrgencyKeywords = false
    ∧ ¬(keywordUrgency "Please reply soon, whenever works" = "medium") := by
  decide

/-- C7 amended: the tiers are checked in the order high, medium, low and
only a high match short-circuits; any high-tier keyword forces `"high"`
regardless of lower tiers, and without a high match the LAST matching tier
in the order medium, low wins — so a text matching both classifies `"low"`,
and `"medium"` results only when a medium keyword matches and no high or
low keyword does. -/
theorem urgency_tier_order (text : String) :
    keywordUrgency text =
      (if kwAny (lowerChars text.data) highUrgencyKeywords then "high"
       else if kwAny (lowerChars text.data) lowUrgencyKeywords then "low"
       else if kwAny (lowerChars text.data) mediumUrgencyKeywords then "medium"
       else "low") := by
  unfold keywordUrgency determineUrgency urgencyTiers
  simp only [List.foldl]
  unfold urgencyStep
  cases hH : kwAny (lowerChars text.data) highUrgencyKeywords <;>
    cases hM : kwAny (lowerChars text.data) mediumUrgencyKeywords <;>
      cases hL : kwAny (lowerChars text.data) lowUrgencyKeywords <;>
        simp [hH, hM, hL]

/-! ## Theorems: tone analysis is not pure (C8) -/

/-- C8: the code-level refutation of purity.  `base_tones` aliases the
class-level `TONE_MAPPING["question"]` list, and a negative-sentiment call
mutates it in place (`insert(0, "apologetic")`, `append("understanding")`);
a later call with identical arguments (`"hello"`, `"question"`, no history)
then returns a different result than the same call made on the pristine
mapping — primary tone `"apologetic"` and confidence `1` instead of
`"helpful"` and `3/5`. -/
theorem tone_mapping_mutated_across_calls :
    (toneRun (toneRun initialToneMapping "this is terrible" "question" none).2
        "hello" "question" none).1
      ≠ (toneRun initialToneMapping "hello" "question" none).1 := by
  decide

/-! ## Theorems: relevance filtering (C4) -/

/-- The stable descending order: strictly higher score first, ties in
original (index) order. -/
def scRel (a b : ScoredCtx) : Prop :=
  a.score > b.score ∨ (a.score = b.score ∧ a.index < b.index)

theorem mem_insertDesc (x y : ScoredCtx) :
    ∀ l : List ScoredCtx, y ∈ insertDesc x l ↔ y = x ∨ y ∈ l := by
  intro l
  induction l with
  | nil => simp [insertDesc]
  | cons z zs ih =>
    unfold insertDesc
    split
    · simp
    · simp only [List.mem_cons, ih]
      tauto

theorem length_insertDesc (x : ScoredCtx) :
    ∀ l : List ScoredCtx, (insertDesc x l).length = l.length + 1 := by
  intro l
  induction l with
  | nil => rfl
  | cons z zs ih =>
    unfold insertDesc
    split
    · simp
    · simp [ih]

theorem mem_sortDesc (y : ScoredCtx) :
    ∀ l : List ScoredCtx, y ∈ sortDesc l ↔ y ∈ l := by
  intro l
  induction l with
  | nil => simp [sortDesc]
  | cons z zs ih => simp [sortDesc, mem_insertDesc, ih]

theorem length_sortDesc :
    ∀ l : List ScoredCtx, (sortDesc l).length = l.length := by
  intro l
  induction l with
  | nil => rfl
  | cons z zs ih => simp [sortDesc, length_insertDesc, ih]

/-- Inserting an element whose index precedes every index of an
`scRel`-sorted list keeps the list `scRel`-sorted. -/
theorem pairwise_insertDesc (x : ScoredCtx) :
    ∀ l : List ScoredCtx, l.Pairwise scRel → (∀ y ∈ l, x.index < y.index) →
      (insertDesc x l).Pairwise scRel := by
  intro l
  induction l with
  | nil => intro _ _; simp [insertDesc, List.pairwise_singleton]
  | cons y ys ih =>
    intro hp hidx
    unfold insertDesc
    split
    · rename_i hge
      refine List.pairwise_cons.mpr ⟨?_, hp⟩
      intro z hz
      rcases List.mem_cons.mp hz with rfl | hz'
      · rcases lt_or_eq_of_le hge with hlt | heq
        · exact Or.inl hlt
        · exact Or.inr ⟨heq.symm, hidx _ (List.mem_cons_self _ _)⟩
      · have hyz := (List.pairwise_cons.mp hp).1 z hz'
        rcases hyz with hyz | ⟨hyz, _⟩
        · rcases lt_or_eq_of_le hge with hlt | heq
          · exact Or.inl (lt_trans hyz hlt)
          · exact Or.inl (heq ▸ hyz)
        · rcases lt_or_eq_of_le hge with hlt | heq
          · exact Or.inl (hyz ▸ hlt)
          · exact Or.inr ⟨heq.symm.trans hyz, hidx _ (List.mem_cons_of_mem _ hz')⟩
    · rename_i hlt
      push_neg at hlt
      refine List.pairwise_cons.mpr ⟨?_, ?_⟩
      · intro z hz
        rcases (mem_insertDesc x z ys).mp hz with rfl | hz'
        · exact Or.inl hlt
        · exact (List.pairwise_cons.mp hp).1 z hz'
      · exact ih (List.pairwise_cons.mp hp).2
          (fun z hz => hidx z (List.mem_cons_of_mem _ hz))

/-- Sorting a list whose indices strictly increase yields the stable
descending order. -/
theorem pairwise_sortDesc :
    ∀ l : List ScoredCtx, l.Pairwise (fun a b => a.index < b.index) →
      (sortDesc l).Pairwise scRel := by
  intro l
  induction l with
  | nil => intro _; simp [sortDesc]
  | cons x xs ih =>
    intro hp
    have hx := (List.pairwise_cons.mp hp).1
    exact pairwise_insertDesc x _ (ih (List.pairwise_cons.mp hp).2)
      (fun y hy => hx y ((mem_sortDesc y xs).mp hy))

/-- The scoring loop enumerates, so indices strictly increase. -/
theorem scoreContexts_indices (oracle : ℕ → Option ℚ) (contexts : List String) :
    (scoreContexts oracle contexts).Pairwise (fun a b => a.index < b.index) := by
  unfold scoreContexts
  rw [List.pairwise_map]
  have h2 : (contexts.enum.map Prod.fst).Pairwise (fun a b : ℕ => a < b) := by
    rw [List.enum_map_fst]
    exact List.pairwise_lt_range _
  exact (List.pairwise_map.mp h2).imp (fun hab => hab)

/-- C4: relevance filtering returns the scored passages in stable
descending score order (strictly higher first, ties keeping original
order), keeps exactly the records with score ≥ 6, never more records than
inputs; the returned fields are the projections of that sorted filtered
list, and the empty input yields the empty result with `avg_score = 0`
(no exception — the rendering is total). -/
theorem context_filter_properties (oracle : ℕ → Option ℚ) (contexts : List String) :
    (filterPipeline oracle contexts).Pairwise scRel
    ∧ (∀ c ∈ filterPipeline oracle contexts, (6 : ℚ) ≤ c.score)
    ∧ (filterPipeline oracle contexts).length ≤ contexts.length
    ∧ (contextFilterRun oracle contexts).filtered_contexts
        = (filterPipeline oracle contexts).map (fun c => c.context)
    ∧ (contextFilterRun oracle contexts).scores
        = (filterPipeline oracle contexts).map (fun c => c.score)
    ∧ contextFilterRun oracle [] = ⟨[], [], [], 0, 0⟩ := by
  refine ⟨?_, ?_, ?_, rfl, rfl, rfl⟩
  · exact List.Pairwise.filter _
      (pairwise_sortDesc _ (scoreContexts_indices oracle contexts))
  · intro c hc
    have := (List.mem_filter.mp hc).2
    simpa [ge_iff_le] using of_decide_eq_true this
  · calc (filterPipeline oracle contexts).length
        ≤ (sortDesc (scoreContexts oracle contexts)).length :=
          List.length_filter_le _ _
      _ = (scoreContexts oracle contexts).length := length_sortDesc _
      _ = contexts.length := by simp [scoreContexts]

/-- Witness for C4 at a concrete run: the single kept record of a
one-context input scored 7 satisfies the ≥ 6 bound. -/
theorem context_filter_properties_witness :
    (⟨"a", 7, 0⟩ : ScoredCtx) ∈ filterPipeline (fun _ => some 7) ["a"]
    ∧ (6 : ℚ) ≤ (⟨"a", 7, 0⟩ : ScoredCtx).score :=
  ⟨by decide,
   (context_filter_properties (fun _ => some 7) ["a"]).2.1 ⟨"a", 7, 0⟩ (by decide)⟩

/-! ## Theorems: deduplication (C3, C9) -/

theorem dedup_append_single (l : List Passage) (p : Passage) :
    deduplicateContexts (l ++ [p]) = dedupInsert p (deduplicateContexts l) := by
  unfold deduplicateContexts
  rw [List.foldl_append]
  rfl

theorem groupKeep_append (first : Passage) (g : List Passage) (p : Passage) :
    groupKeep first (g ++ [p])
      = (if p.score > (groupKeep first g).score then p else groupKeep first g) := by
  unfold groupKeep
  rw [List.foldl_append]
  rfl

theorem keyOf_groupKeep (k : List Char) :
    ∀ (g : List Passage) (first : Passage), keyOf first = k → (∀ x ∈ g, keyOf x = k) →
      keyOf (groupKeep first g) = k := by
  intro g
  induction g with
  | nil => intro first h _; exact h
  | cons x g' ih =>
    intro first h hall
    show keyOf (groupKeep (if x.score > first.score then x else first) g') = k
    refine ih _ ?_ (fun y hy => hall y (List.mem_cons_of_mem _ hy))
    split
    · exact hall x (List.mem_cons_self _ _)
    · exact h

theorem dedupInsert_head_eq (p G : Passage) (rest : List Passage)
    (h : keyOf G = keyOf p) :
    dedupInsert p (G :: rest) = (if p.score > G.score then p else G) :: rest := by
  simp [dedupInsert, h]

theorem dedupInsert_head_ne (p G : Passage) (rest : List Passage)
    (h : ¬keyOf G = keyOf p) :
    dedupInsert p (G :: rest) = G :: dedupInsert p rest := by
  simp [dedupInsert, h]

/-- Appending one passage to the input and rerunning the spec-words dedup
equals one accumulator step on the previous spec-words output. -/
theorem dedupSpec_append (p : Passage) :
    ∀ l : List Passage, dedupSpec (l ++ [p]) = dedupInsert p (dedupSpec l) := by
  intro l
  induction l using dedupSpec.induct with
  | case1 => simp [dedupSpec, dedupInsert, groupKeep]
  | case2 q ps ih =>
    rw [List.cons_append, dedupSpec, dedupSpec]
    by_cases hpq : keyOf p = keyOf q
    · have h1 : List.filter (fun r => decide (keyOf r = keyOf q)) [p] = [p] := by
        simp [hpq]
      have h2 : List.filter (fun r => decide ¬(keyOf r = keyOf q)) [p] = [] := by
        simp [hpq]
      rw [List.filter_append, List.filter_append, h1, h2, List.append_nil,
        groupKeep_append]
      have hG : keyOf (groupKeep q (ps.filter fun r => decide (keyOf r = keyOf q)))
          = keyOf p := by
        rw [hpq]
        refine keyOf_groupKeep (keyOf q) _ q rfl ?_
        intro x hx
        exact of_decide_eq_true (List.mem_filter.mp hx).2
      rw [dedupInsert_head_eq _ _ _ hG]
    · have h1 : List.filter (fun r => decide (keyOf r = keyOf q)) [p] = [] := by
        simp [hpq]
      have h2 : List.filter (fun r => decide ¬(keyOf r = keyOf q)) [p] = [p] := by
        simp [hpq]
      rw [List.filter_append, List.filter_append, h1, h2, List.append_nil, ih]
      have hG : keyOf (groupKeep q (ps.filter fun r => decide (keyOf r = keyOf q)))
          = keyOf q := by
        refine keyOf_groupKeep (keyOf q) _ q rfl ?_
        intro x hx
        exact of_decide_eq_true (List.mem_filter.mp hx).2
      rw [dedupInsert_head_ne]
      rw [hG]
      intro hqp
      exact hpq hqp.symm

/-- The streaming one-pass dedup of the code computes the groupwise
description of the spec. -/
theorem dedup_eq_spec : ∀ ps : List Passage, deduplicateContexts ps = dedupSpec ps := by
  intro ps
  induction ps using List.reverseRecOn with
  | nil => simp [deduplicateContexts, dedupSpec]
  | append_singleton l p ih => rw [dedup_append_single, ih, dedupSpec_append]

/-- C3: deduplication, keyed on the whitespace-stripped first 100
characters of the text (case-sensitive), equals the spec's description —
the first occurrence of a key initializes the kept entry, each later
occurrence with a strictly higher score replaces the whole entry, and the
output is in first-occurrence order (`dedupSpec` is that description read
off the spec).  In particular two passages whose first-100-character keys
agree, with scores 4 and 7, keep the text of the score-7 passage in either
input order; with equal scores the later passage is discarded. -/
theorem dedup_matches_spec :
    (∀ ps : List Passage, deduplicateContexts ps = dedupSpec ps)
    ∧ deduplicateContexts
        [⟨"Returns are accepted within 30 days.", "faq", 4⟩,
         ⟨"Returns are accepted within 30 days. ", "kb", 7⟩]
        = [⟨"Returns are accepted within 30 days. ", "kb", 7⟩]
    ∧ deduplicateContexts
        [⟨"Returns are accepted within 30 days. ", "kb", 7⟩,
         ⟨"Returns are accepted within 30 days.", "faq", 4⟩]
        = [⟨"Returns are accepted within 30 days. ", "kb", 7⟩]
    ∧ deduplicateContexts
        [⟨"Returns are accepted within 30 days.", "faq", 4⟩,
         ⟨"Returns are accepted within 30 days. ", "kb", 4⟩]
        = [⟨"Returns are accepted within 30 days.", "faq", 4⟩] :=
  ⟨dedup_eq_spec, by decide, by decide, by decide⟩

/-- The key list of the accumulator after an insert: unchanged when the
key was present, extended when it was new. -/
theorem keys_dedupInsert_mem (p : Passage) :
    ∀ l : List Passage, keyOf p ∈ l.map keyOf →
      (dedupInsert p l).map keyOf = l.map keyOf := by
  intro l
  induction l with
  | nil => intro h; simp at h
  | cons q qs ih =>
    intro h
    by_cases hq : keyOf q = keyOf p
    · rw [dedupInsert_head_eq _ _ _ hq]
      simp only [List.map_cons]
      congr 1
      split
      · exact hq.symm
      · rfl
    · rw [dedupInsert_head_ne _ _ _ hq]
      simp only [List.map_cons]
      congr 1
      refine ih ?_
      rcases List.mem_cons.mp h with h' | h'
      · exact absurd h'.symm hq
      · exact h'

theorem dedupInsert_fresh (p : Passage) :
    ∀ l : List Passage, keyOf p ∉ l.map keyOf → dedupInsert p l = l ++ [p] := by
  intro l
  induction l with
  | nil => intro _; rfl
  | cons q qs ih =>
    intro h
    simp only [List.map_cons, List.mem_cons] at h
    push_neg at h
    rw [dedupInsert_head_ne _ _ _ (fun he => h.1 he.symm), ih h.2, List.cons_append]

theorem keys_nodup_dedupInsert (p : Passage) (l : List Passage)
    (h : (l.map keyOf).Nodup) : ((dedupInsert p l).map keyOf).Nodup := by
  by_cases hm : keyOf p ∈ l.map keyOf
  · rw [keys_dedupInsert_mem p l hm]; exact h
  · rw [dedupInsert_fresh p l hm]
    simp only [List.map_append, List.map_cons, List.map_nil]
    exact List.Nodup.append h (List.nodup_singleton _)
      (by simpa [List.disjoint_singleton] using hm)

/-- The dedup output never holds two entries with the same key. -/
theorem keys_nodup_dedup :
    ∀ ps : List Passage, ((deduplicateContexts ps).map keyOf).Nodup := by
  intro ps
  induction ps using List.reverseRecOn with
  | nil => simp [deduplicateContexts]
  | append_singleton l p ih =>
    rw [dedup_append_single]
    exact keys_nodup_dedupInsert p _ ih

/-- A list whose keys are pairwise distinct is a dedup fixpoint. -/
theorem dedup_fixpoint :
    ∀ l : List Passage, (l.map keyOf).Nodup → deduplicateContexts l = l := by
  intro l
  induction l using List.reverseRecOn with
  | nil => intro _; rfl
  | append_singleton l' p ih =>
    intro h
    simp only [List.map_append, List.map_cons, List.map_nil] at h
    have h1 := List.Nodup.of_append_left h
    have h2 : keyOf p ∉ l'.map keyOf := by
      intro hmem
      exact (List.disjoint_of_nodup_append h) hmem (List.mem_singleton_self _)
    rw [dedup_append_single, ih h1, dedupInsert_fresh p l' h2]

/-- C9: deduplication is idempotent — applying the dedup step to its own
output returns that output unchanged (same texts, sources, scores, same
order), because the output never repeats a dedup key. -/
theorem dedup_idempotent (ps : List Passage) :
    deduplicateContexts (deduplicateContexts ps) = deduplicateContexts ps :=
  dedup_fixpoint _ (keys_nodup_dedup ps)

end AutoResponder
